import Mathlib

/-!
Verification of the `ccsw` CLI's settings-merger logic (src/index.js).

The tool toggles two provider profiles (GLM, Bedrock) on and off inside a
project-local JSON settings file `.claude/settings.json`, and maintains a
`.gitignore` entry on activation.  We model JSON objects as ordered
association lists (matching JavaScript object key ordering: `Object.assign`
updates an existing key in place and appends new keys in source order;
`delete` removes a key preserving the order of the rest), the settings file
as an optional file content (absent, malformed JSON, or a well-formed
settings object), and each CLI action as a pure function on a world state
consisting of the settings file and the `.gitignore` content.
-/

namespace Ccsw

/-- An opaque top-level JSON value (enough to represent user-owned fields
such as `"foo": 1` in the spec's examples). -/
inductive Val where
  | str : String → Val
  | num : Int → Val
deriving DecidableEq, Repr

/-- The `env` section: an ordered mapping from string keys to string values. -/
abbrev EnvMap := List (String × String)

/-- A well-formed `.claude/settings.json` object: arbitrary top-level fields
other than `env` and `model` (opaque, order-preserving), an optional `env`
mapping, and an optional top-level `model` string. -/
structure Settings where
  other : List (String × Val)
  env : Option EnvMap
  model : Option String
deriving DecidableEq, Repr

def Settings.empty : Settings := ⟨[], none, none⟩

/-- `Object.keys(settings).length === 0` in the source. -/
def settingsIsEmpty (s : Settings) : Bool :=
  s.other.isEmpty && s.env.isNone && s.model.isNone

/-- Content of the settings file when it exists on disk: either malformed
(fails to parse as JSON) or a well-formed settings object. -/
inductive FileContent where
  | malformed : FileContent
  | wellFormed : Settings → FileContent
deriving DecidableEq, Repr

/-- `none` = the settings file does not exist. -/
abbrev FileState := Option FileContent

/-- The project state the tool mutates: the settings file and the
`.gitignore` content (read as `''` when the file is absent; `appendFile`
creates it, so content alone is a faithful model). -/
structure World where
  settings : FileState
  gitignore : List Char
deriving DecidableEq, Repr

/-- Membership of a key in a list of keys, via string equality
(models the JavaScript `in` / property-existence semantics). -/
def keyMem (k : String) : List String → Bool
  | [] => false
  | k' :: t => k == k' || keyMem k t

/-- JavaScript object property assignment `obj[k] = v` on an ordered map:
an existing key keeps its position and gets the new value; a fresh key is
appended at the end. -/
def setKey (m : EnvMap) (k v : String) : EnvMap :=
  if keyMem k (m.map Prod.fst) then
    m.map (fun p => if p.1 == k then (k, v) else p)
  else m ++ [(k, v)]

/-- `Object.assign(m, kvs)`: assign each pair of `kvs` in order. -/
def assignAll (m : EnvMap) (kvs : List (String × String)) : EnvMap :=
  kvs.foldl (fun acc kv => setKey acc kv.1 kv.2) m

/-- `keysToRemove.forEach(key => delete m[key])`. -/
def removeKeys (m : EnvMap) (ks : List String) : EnvMap :=
  ks.foldl (fun acc k => acc.filter (fun p => p.1 != k)) m

/-- First value stored under a key, if any. -/
def lookupV : EnvMap → String → Option String
  | [], _ => none
  | x :: t, k => if k == x.1 then some x.2 else lookupV t k

/-- Whether the keys of an association list are pairwise distinct (true of
both profile literals; JavaScript object literals cannot repeat a key). -/
def nodupKeys : List (String × String) → Bool
  | [] => true
  | x :: t => !keyMem x.1 (t.map Prod.fst) && nodupKeys t

/-- Replace an entry by the value the assignment list holds for its key,
if any: the pointwise effect of `Object.assign` on already-present keys. -/
def overrideBy (kvs : List (String × String)) (p : String × String) : String × String :=
  match lookupV kvs p.1 with
  | some v => (p.1, v)
  | none => p

/-- The `newSettings` literal written into `env` by `glm-on`
(src/index.js lines 85-93). -/
def glmNewSettings (apiKey : String) : List (String × String) :=
  [("ANTHROPIC_BASE_URL", "https://api.z.ai/api/anthropic"),
   ("ANTHROPIC_AUTH_TOKEN", apiKey),
   ("API_TIMEOUT_MS", "3000000"),
   ("ANTHROPIC_DEFAULT_SONNET_MODEL", "glm-4.7"),
   ("ANTHROPIC_DEFAULT_OPUS_MODEL", "glm-4.7"),
   ("ANTHROPIC_DEFAULT_HAIKU_MODEL", "glm-4.5-air"),
   ("IS_DEMO", "true")]

/-- The `keysToRemove` list of `glm-off` (src/index.js lines 138-146). -/
def glmKeysToRemove : List String :=
  ["ANTHROPIC_BASE_URL",
   "ANTHROPIC_AUTH_TOKEN",
   "API_TIMEOUT_MS",
   "ANTHROPIC_DEFAULT_SONNET_MODEL",
   "ANTHROPIC_DEFAULT_OPUS_MODEL",
   "ANTHROPIC_DEFAULT_HAIKU_MODEL",
   "IS_DEMO"]

/-- The `newSettings` literal written into `env` by `bedrock-on`
(src/index.js lines 199-204). -/
def bedrockNewSettings (profileName region : String) : List (String × String) :=
  [("CLAUDE_CODE_USE_BEDROCK", "1"),
   ("AWS_PROFILE", profileName),
   ("AWS_REGION", region),
   ("IS_DEMO", "true")]

/-- The `keysToRemove` list of `bedrock-off` (src/index.js lines 250-255). -/
def bedrockKeysToRemove : List String :=
  ["CLAUDE_CODE_USE_BEDROCK", "AWS_PROFILE", "AWS_REGION", "IS_DEMO"]

/-- The fixed top-level `model` set by `bedrock-on` (src/index.js line 207). -/
def bedrockModelId : String := "eu.anthropic.claude-opus-4-5-20251101-v1:0"

/-- Activation load (src/index.js lines 70-78 and 186-193): missing file
and parse failure both yield an empty object. -/
def loadForActivate : FileState → Settings
  | none => Settings.empty
  | some .malformed => Settings.empty
  | some (.wellFormed s) => s

/-- `options.x || defaultValue`: an absent or empty-string option falls back
to the default (JavaScript falsiness of the empty string). -/
def resolveOpt (o : Option String) (d : String) : String :=
  match o with
  | none => d
  | some s => if s.isEmpty then d else s

/-- The in-memory mutation of `glm-on` (lines 80-95): ensure `env` exists,
then `Object.assign` the GLM literals into it. -/
def glmApply (apiKey : String) (s : Settings) : Settings :=
  { s with env := some (assignAll (s.env.getD []) (glmNewSettings apiKey)) }

/-- The in-memory mutation of `bedrock-on` (lines 195-207): ensure `env`,
`Object.assign` the Bedrock literals, then set the top-level `model`. -/
def bedrockApply (profileName region : String) (s : Settings) : Settings :=
  { s with
    env := some (assignAll (s.env.getD []) (bedrockNewSettings profileName region)),
    model := some bedrockModelId }

/-- The `.gitignore` entry literal. -/
def gitignoreEntry : List Char := ".claude/settings.json".toList

/-- `hay.includes(needle)` on strings, as in JavaScript. -/
def hasSub (needle : List Char) : List Char → Bool
  | [] => needle.isEmpty
  | c :: t => needle.isPrefixOf (c :: t) || hasSub needle t

/-- `content.endsWith('\n')`. -/
def endsWithNewline (g : List Char) : Bool := g.getLast? == some '\n'

/-- The `.gitignore` synchronization of both activation commands
(lines 100-115 and 212-227): append the entry unless the content already
contains it as a substring, with a leading newline separator only when the
existing content is non-empty and does not end with a newline. -/
def updateGitignore (g : List Char) : List Char :=
  if hasSub gitignoreEntry g then g
  else g ++ (if g.length > 0 && !endsWithNewline g then ['\n'] else [])
    ++ gitignoreEntry ++ ['\n']

/-- Outcome of an activation command. -/
inductive OnResult where
  | exitedNoKey : OnResult
  | wrote : OnResult
deriving DecidableEq, Repr

/-- `process.exit(1)` on the missing-key path, normal exit otherwise. -/
def exitCode : OnResult → Nat
  | .exitedNoKey => 1
  | .wrote => 0

/-- Outcome of a deactivation command (each constructor corresponds to one
of the distinct log messages of the source). -/
inductive OffResult where
  | nothingToDo : OffResult
  | parseError : OffResult
  | removedFile : OffResult
  | updated : OffResult
deriving DecidableEq, Repr

/-- The `glm-on` action (src/index.js lines 52-120).  `storedKey` is
`config.glmApiKey` from the credential store; the falsy check `!apiKey`
fires on both an absent and an empty-string key, exiting with status 1
before any file is touched. -/
def glmOn (storedKey : Option String) (w : World) : World × OnResult :=
  match storedKey with
  | none => (w, .exitedNoKey)
  | some apiKey =>
    if apiKey.isEmpty then (w, .exitedNoKey)
    else
      ({ settings := some (.wellFormed (glmApply apiKey (loadForActivate w.settings))),
         gitignore := updateGitignore w.gitignore }, .wrote)

/-- The `bedrock-on` action (src/index.js lines 174-232). -/
def bedrockOn (profileOpt regionOpt : Option String) (w : World) : World :=
  { settings := some (.wellFormed
      (bedrockApply (resolveOpt profileOpt "sjmbrprofile")
        (resolveOpt regionOpt "eu-west-1") (loadForActivate w.settings))),
    gitignore := updateGitignore w.gitignore }

/-- Deactivation's `env` edit: if `env` exists, delete the owned keys, then
drop `env` entirely when it became empty (lines 137-154 and 249-262). -/
def stripEnv (e : Option EnvMap) (ks : List String) : Option EnvMap :=
  match e with
  | none => none
  | some m =>
    let m' := removeKeys m ks
    if m'.isEmpty then none else some m'

/-- The in-memory mutation of `glm-off`. -/
def glmRemove (s : Settings) : Settings :=
  { s with env := stripEnv s.env glmKeysToRemove }

/-- The in-memory mutation of `bedrock-off`, which also unconditionally
deletes the top-level `model` (line 265). -/
def bedrockRemove (s : Settings) : Settings :=
  { other := s.other, env := stripEnv s.env bedrockKeysToRemove, model := none }

/-- The `glm-off` action (src/index.js lines 122-172): no-op when the file
is absent; a parse failure propagates to the catch block (file untouched);
otherwise remove the owned keys and delete the file when the object became
empty, else persist it. -/
def glmOff (w : World) : World × OffResult :=
  match w.settings with
  | none => (w, .nothingToDo)
  | some .malformed => (w, .parseError)
  | some (.wellFormed s) =>
    let s' := glmRemove s
    if settingsIsEmpty s' then ({ w with settings := none }, .removedFile)
    else ({ w with settings := some (.wellFormed s') }, .updated)

/-- The `bedrock-off` action (src/index.js lines 234-278). -/
def bedrockOff (w : World) : World × OffResult :=
  match w.settings with
  | none => (w, .nothingToDo)
  | some .malformed => (w, .parseError)
  | some (.wellFormed s) =>
    let s' := bedrockRemove s
    if settingsIsEmpty s' then ({ w with settings := none }, .removedFile)
    else ({ w with settings := some (.wellFormed s') }, .updated)

end Ccsw

namespace Ccsw

/-! ### Concrete worlds used in witnesses and examples -/

/-- The spec's §8 example initial state: settings file
`{"foo": 1, "env": {"bar": "baz"}}`, empty ignore file. -/
def exampleWorld : World :=
  { settings := some (.wellFormed
      { other := [("foo", Val.num 1)], env := some [("bar", "baz")], model := none }),
    gitignore := [] }

/-- A fresh project: no settings file, no ignore file content. -/
def freshWorld : World := { settings := none, gitignore := [] }

/-- A project whose settings file exists and parses to the empty object. -/
def emptyObjWorld : World :=
  { settings := some (.wellFormed Settings.empty), gitignore := [] }

/-- A project whose settings file exists but does not parse as JSON. -/
def malformedWorld : World :=
  { settings := some .malformed, gitignore := [] }

/-- `env` is not persisted as an empty mapping. -/
def envNotEmptyMapping : Option EnvMap → Bool
  | some [] => false
  | _ => true

/-- The persistence invariant of C2 on a file state: whenever the file holds
a well-formed object, that object is non-empty and its `env`, if present, is
a non-empty mapping. -/
def persistInvariant : FileState → Bool
  | some (.wellFormed s) => !(settingsIsEmpty s) && envNotEmptyMapping s.env
  | _ => true

/-- Initial file states on which the GLM activate/deactivate roundtrip can
restore the file exactly: the file is absent, or holds a well-formed
non-empty object that carries none of the GLM-owned `env` keys and whose
`env`, if present, is non-empty. -/
def glmRoundtripSafe : FileState → Bool
  | none => true
  | some .malformed => false
  | some (.wellFormed s) =>
    !(settingsIsEmpty s) &&
    (match s.env with
     | none => true
     | some e => !e.isEmpty && e.all (fun p => !keyMem p.1 glmKeysToRemove))

/-- Initial file states on which the Bedrock roundtrip can restore the file
exactly: as for GLM, with the Bedrock-owned keys, which include the
top-level `model`. -/
def bedrockRoundtripSafe : FileState → Bool
  | none => true
  | some .malformed => false
  | some (.wellFormed s) =>
    !(settingsIsEmpty s) && s.model.isNone &&
    (match s.env with
     | none => true
     | some e => !e.isEmpty && e.all (fun p => !keyMem p.1 bedrockKeysToRemove))

end Ccsw

namespace Ccsw

/-! ### Association-list lemmas about `keyMem`, `removeKeys`, `setKey`,
`assignAll` -/

theorem keyMem_eq_true {k : String} {ks : List String} :
    keyMem k ks = true ↔ k ∈ ks := by
  induction ks with
  | nil => simp [keyMem]
  | cons x t ih => simp [keyMem, ih, beq_iff_eq]

theorem keyMem_append (k : String) (a b : List String) :
    keyMem k (a ++ b) = (keyMem k a || keyMem k b) := by
  induction a with
  | nil => simp [keyMem]
  | cons x t ih => simp [keyMem, ih, Bool.or_assoc]

theorem keyMem_mapFst_false {m : EnvMap} {k : String}
    (h : keyMem k (m.map Prod.fst) = false) : ∀ p ∈ m, p.1 ≠ k := by
  intro p hp hpk
  have hmem : k ∈ m.map Prod.fst := List.mem_map.mpr ⟨p, hp, hpk⟩
  have ht := keyMem_eq_true.mpr hmem
  rw [h] at ht
  simp at ht

theorem removeKeys_nil_right (m : EnvMap) : removeKeys m [] = m := rfl

theorem removeKeys_cons (m : EnvMap) (k : String) (ks : List String) :
    removeKeys m (k :: ks) = removeKeys (m.filter (fun p => p.1 != k)) ks := rfl

theorem removeKeys_eq_filter (m : EnvMap) (ks : List String) :
    removeKeys m ks = m.filter (fun p => !keyMem p.1 ks) := by
  induction ks generalizing m with
  | nil => simp [removeKeys, keyMem, List.filter_true]
  | cons k t ih =>
      rw [removeKeys_cons, ih, List.filter_filter]
      apply List.filter_congr
      intro p _
      simp [keyMem, Bool.not_or, Bool.and_comm, bne]

theorem removeKeys_nil_left (ks : List String) : removeKeys [] ks = [] := by
  rw [removeKeys_eq_filter]; rfl

theorem removeKeys_eq_self {m : EnvMap} {ks : List String}
    (h : ∀ p ∈ m, keyMem p.1 ks = false) : removeKeys m ks = m := by
  rw [removeKeys_eq_filter]
  apply List.filter_eq_self.mpr
  intro p hp
  rw [h p hp]
  rfl

theorem filter_map_update {m : EnvMap} {k v : String} {ks : List String}
    (hk : keyMem k ks = true) :
    (m.map (fun p => if p.1 == k then (k, v) else p)).filter (fun p => !keyMem p.1 ks)
      = m.filter (fun p => !keyMem p.1 ks) := by
  induction m with
  | nil => rfl
  | cons p t ih =>
      by_cases hpk : (p.1 == k) = true
      · have hp1 : p.1 = k := eq_of_beq hpk
        rw [List.map_cons, if_pos hpk, List.filter_cons, List.filter_cons,
          if_neg (by simp [hk]), if_neg (by simp [hp1, hk]), ih]
      · rw [List.map_cons, if_neg hpk, List.filter_cons, List.filter_cons, ih]

theorem removeKeys_setKey {m : EnvMap} {k v : String} {ks : List String}
    (hk : keyMem k ks = true) :
    removeKeys (setKey m k v) ks = removeKeys m ks := by
  rw [removeKeys_eq_filter, removeKeys_eq_filter]
  unfold setKey
  split
  · exact filter_map_update hk
  · rw [List.filter_append]
    simp [hk]

theorem assignAll_cons (m : EnvMap) (kv : String × String)
    (kvs : List (String × String)) :
    assignAll m (kv :: kvs) = assignAll (setKey m kv.1 kv.2) kvs := rfl

theorem removeKeys_assignAll {m : EnvMap} {kvs : List (String × String)}
    {ks : List String} (h : ∀ kv ∈ kvs, keyMem kv.1 ks = true) :
    removeKeys (assignAll m kvs) ks = removeKeys m ks := by
  induction kvs generalizing m with
  | nil => rfl
  | cons kv t ih =>
      rw [assignAll_cons, ih (fun x hx => h x (List.mem_cons_of_mem _ hx)),
        removeKeys_setKey (h kv (List.mem_cons_self _ _))]

theorem mapFst_update (m : EnvMap) (k v : String) :
    (m.map (fun p => if p.1 == k then (k, v) else p)).map Prod.fst
      = m.map Prod.fst := by
  induction m with
  | nil => rfl
  | cons p t ih =>
      simp only [List.map_cons, ih]
      congr 1
      by_cases hpk : (p.1 == k) = true
      · rw [if_pos hpk]
        exact (eq_of_beq hpk).symm
      · rw [if_neg hpk]

theorem mapFst_setKey (m : EnvMap) (k v : String) :
    (setKey m k v).map Prod.fst =
      if keyMem k (m.map Prod.fst) then m.map Prod.fst
      else m.map Prod.fst ++ [k] := by
  unfold setKey
  by_cases h : keyMem k (m.map Prod.fst) = true
  · rw [if_pos h, if_pos h]
    exact mapFst_update m k v
  · rw [if_neg h, if_neg h, List.map_append]
    rfl

theorem keyMem_setKey_self (m : EnvMap) (k v : String) :
    keyMem k ((setKey m k v).map Prod.fst) = true := by
  rw [mapFst_setKey]
  by_cases h : keyMem k (m.map Prod.fst) = true
  · simp [h]
  · simp [h, keyMem_append, keyMem]

theorem keyMem_setKey_mono {m : EnvMap} {j : String} (k v : String)
    (h : keyMem j (m.map Prod.fst) = true) :
    keyMem j ((setKey m k v).map Prod.fst) = true := by
  rw [mapFst_setKey]
  by_cases hk : keyMem k (m.map Prod.fst) = true
  · simp [hk, h]
  · simp [hk, keyMem_append, h]

theorem keyMem_assignAll_mono {m : EnvMap} {j : String}
    {kvs : List (String × String)} (h : keyMem j (m.map Prod.fst) = true) :
    keyMem j ((assignAll m kvs).map Prod.fst) = true := by
  induction kvs generalizing m with
  | nil => exact h
  | cons kv t ih =>
      rw [assignAll_cons]
      exact ih (keyMem_setKey_mono _ _ h)

theorem keyMem_assignAll {m : EnvMap} {kvs : List (String × String)} :
    ∀ kv ∈ kvs, keyMem kv.1 ((assignAll m kvs).map Prod.fst) = true := by
  induction kvs generalizing m with
  | nil => intro kv h; simp at h
  | cons x t ih =>
      intro kv hkv
      rw [assignAll_cons]
      rcases List.mem_cons.mp hkv with h | h
      · subst h
        exact keyMem_assignAll_mono (keyMem_setKey_self m kv.1 kv.2)
      · exact ih kv h

/-! ### Values held by the result of `assignAll` -/

theorem setKey_val_self {m : EnvMap} {k v : String} :
    ∀ p ∈ setKey m k v, p.1 = k → p.2 = v := by
  intro p hp hpk
  unfold setKey at hp
  by_cases h : keyMem k (m.map Prod.fst) = true
  · rw [if_pos h] at hp
    obtain ⟨q, hq, hqe⟩ := List.mem_map.mp hp
    by_cases hq1 : (q.1 == k) = true
    · rw [if_pos hq1] at hqe
      cases hqe
      rfl
    · rw [if_neg hq1] at hqe
      cases hqe
      exact absurd hpk (by simpa using hq1)
  · rw [if_neg h] at hp
    rcases List.mem_append.mp hp with hm | hs
    · exact absurd hpk (keyMem_mapFst_false (by simpa using h) p hm)
    · rw [List.mem_singleton.mp hs]

theorem setKey_val_preserve {m : EnvMap} {k v k' v' : String}
    (hm : ∀ q ∈ m, q.1 = k → q.2 = v) (hne : k' ≠ k) :
    ∀ p ∈ setKey m k' v', p.1 = k → p.2 = v := by
  intro p hp hpk
  unfold setKey at hp
  by_cases h : keyMem k' (m.map Prod.fst) = true
  · rw [if_pos h] at hp
    obtain ⟨q, hq, hqe⟩ := List.mem_map.mp hp
    by_cases hq1 : (q.1 == k') = true
    · rw [if_pos hq1] at hqe
      cases hqe
      exact absurd hpk hne
    · rw [if_neg hq1] at hqe
      rw [← hqe] at hpk ⊢
      exact hm q hq hpk
  · rw [if_neg h] at hp
    rcases List.mem_append.mp hp with hm' | hs
    · exact hm p hm' hpk
    · rw [List.mem_singleton.mp hs] at hpk
      exact absurd hpk hne

theorem assignAll_val_preserve {m : EnvMap} {k v : String}
    {kvs : List (String × String)}
    (hm : ∀ q ∈ m, q.1 = k → q.2 = v) (hks : ∀ kv ∈ kvs, kv.1 ≠ k) :
    ∀ p ∈ assignAll m kvs, p.1 = k → p.2 = v := by
  induction kvs generalizing m with
  | nil => exact hm
  | cons x t ih =>
      rw [assignAll_cons]
      exact ih (setKey_val_preserve hm (hks x (List.mem_cons_self _ _)))
        (fun kv h => hks kv (List.mem_cons_of_mem _ h))

theorem assignAll_val {m : EnvMap} {kvs : List (String × String)}
    (hnd : nodupKeys kvs = true) :
    ∀ kv ∈ kvs, ∀ p ∈ assignAll m kvs, p.1 = kv.1 → p.2 = kv.2 := by
  induction kvs generalizing m with
  | nil => intro kv h; simp at h
  | cons x t ih =>
      have hnd' : nodupKeys t = true := by
        simp [nodupKeys] at hnd
        exact hnd.2
      have hxk : keyMem x.1 (t.map Prod.fst) = false := by
        simp [nodupKeys] at hnd
        exact hnd.1
      intro kv hkv
      rw [assignAll_cons]
      rcases List.mem_cons.mp hkv with h | h
      · subst h
        exact assignAll_val_preserve setKey_val_self
          (fun q hq => keyMem_mapFst_false hxk q hq)
      · exact ih hnd' kv h

/-! ### `lookupV` and the idempotence of `assignAll` -/

theorem lookupV_cons (x : String × String) (t : EnvMap) (k : String) :
    lookupV (x :: t) k = if k == x.1 then some x.2 else lookupV t k := rfl

theorem lookupV_eq_none {kvs : EnvMap} {k : String}
    (h : keyMem k (kvs.map Prod.fst) = false) : lookupV kvs k = none := by
  induction kvs with
  | nil => rfl
  | cons x t ih =>
      simp [keyMem] at h
      rw [lookupV_cons, if_neg (by simp [h.1]), ih h.2]

theorem lookupV_mem {kvs : EnvMap} {k v : String}
    (h : lookupV kvs k = some v) : (k, v) ∈ kvs := by
  induction kvs with
  | nil => simp [lookupV] at h
  | cons x t ih =>
      rw [lookupV_cons] at h
      by_cases hk : (k == x.1) = true
      · rw [if_pos hk] at h
        injection h with h
        exact List.mem_cons.mpr (Or.inl (by
          rw [Prod.ext_iff]
          exact ⟨eq_of_beq hk, h.symm⟩))
      · rw [if_neg hk] at h
        exact List.mem_cons_of_mem _ (ih h)

theorem assignAll_allPresent {m : EnvMap} {kvs : List (String × String)}
    (h : ∀ kv ∈ kvs, keyMem kv.1 (m.map Prod.fst) = true)
    (hnd : nodupKeys kvs = true) :
    assignAll m kvs = m.map (overrideBy kvs) := by
  induction kvs generalizing m with
  | nil =>
      symm
      calc m.map (overrideBy []) = m.map id := List.map_congr_left (fun a _ => rfl)
        _ = m := List.map_id m
  | cons x t ih =>
      rw [assignAll_cons]
      have hx : keyMem x.1 (m.map Prod.fst) = true := h x (List.mem_cons_self _ _)
      have hset : setKey m x.1 x.2
          = m.map (fun p => if p.1 == x.1 then (x.1, x.2) else p) := by
        unfold setKey
        rw [if_pos hx]
      have hnd' : nodupKeys t = true := by
        simp [nodupKeys] at hnd
        exact hnd.2
      have hxk : keyMem x.1 (t.map Prod.fst) = false := by
        simp [nodupKeys] at hnd
        exact hnd.1
      have ht : ∀ kv ∈ t, keyMem kv.1 ((setKey m x.1 x.2).map Prod.fst) = true := by
        intro kv hkv
        rw [hset, mapFst_update]
        exact h kv (List.mem_cons_of_mem _ hkv)
      rw [ih ht hnd', hset, List.map_map]
      apply List.map_congr_left
      intro p _
      show overrideBy t (if p.1 == x.1 then (x.1, x.2) else p) = overrideBy (x :: t) p
      by_cases hpk : (p.1 == x.1) = true
      · rw [if_pos hpk]
        unfold overrideBy
        rw [lookupV_eq_none hxk, lookupV_cons, if_pos hpk]
        simp [eq_of_beq hpk]
      · rw [if_neg hpk]
        unfold overrideBy
        rw [lookupV_cons, if_neg hpk]

theorem overrideBy_self {kvs : EnvMap} {p : String × String}
    (h : ∀ v, (p.1, v) ∈ kvs → p.2 = v) : overrideBy kvs p = p := by
  unfold overrideBy
  cases hl : lookupV kvs p.1 with
  | none => rfl
  | some v => rw [← h v (lookupV_mem hl)]

theorem assignAll_idem {m : EnvMap} {kvs : List (String × String)}
    (hnd : nodupKeys kvs = true) :
    assignAll (assignAll m kvs) kvs = assignAll m kvs := by
  have hpresent : ∀ kv ∈ kvs, keyMem kv.1 ((assignAll m kvs).map Prod.fst) = true :=
    fun kv h => keyMem_assignAll kv h
  rw [assignAll_allPresent hpresent hnd]
  have hid : ∀ p ∈ assignAll m kvs, overrideBy kvs p = p := by
    intro p hp
    apply overrideBy_self
    intro v hv
    exact assignAll_val hnd (p.1, v) hv p hp rfl
  calc (assignAll m kvs).map (overrideBy kvs)
      = (assignAll m kvs).map id := List.map_congr_left hid
    _ = assignAll m kvs := List.map_id _

/-! ### Profile-literal facts -/

theorem glm_mapFst (k : String) :
    (glmNewSettings k).map Prod.fst = glmKeysToRemove := rfl

theorem bedrock_mapFst (p r : String) :
    (bedrockNewSettings p r).map Prod.fst = bedrockKeysToRemove := rfl

theorem glm_keys_covered (k : String) :
    ∀ kv ∈ glmNewSettings k, keyMem kv.1 glmKeysToRemove = true := by
  intro kv hkv
  rw [keyMem_eq_true, ← glm_mapFst k]
  exact List.mem_map_of_mem _ hkv

theorem bedrock_keys_covered (p r : String) :
    ∀ kv ∈ bedrockNewSettings p r, keyMem kv.1 bedrockKeysToRemove = true := by
  intro kv hkv
  rw [keyMem_eq_true, ← bedrock_mapFst p r]
  exact List.mem_map_of_mem _ hkv

theorem glm_nodup (k : String) : nodupKeys (glmNewSettings k) = true := rfl

theorem bedrock_nodup (p r : String) :
    nodupKeys (bedrockNewSettings p r) = true := rfl

theorem assignAll_glm_ne_nil (e : EnvMap) (k : String) :
    assignAll e (glmNewSettings k) ≠ [] := by
  intro h
  have hm := @keyMem_assignAll e (glmNewSettings k)
    ("ANTHROPIC_BASE_URL", "https://api.z.ai/api/anthropic")
    (by simp [glmNewSettings])
  rw [h] at hm
  simp [keyMem] at hm

theorem assignAll_bedrock_ne_nil (e : EnvMap) (p r : String) :
    assignAll e (bedrockNewSettings p r) ≠ [] := by
  intro h
  have hm := @keyMem_assignAll e (bedrockNewSettings p r)
    ("CLAUDE_CODE_USE_BEDROCK", "1") (by simp [bedrockNewSettings])
  rw [h] at hm
  simp [keyMem] at hm

/-! ### `.gitignore` lemmas -/

theorem isPrefixOf_append_self (l t : List Char) : l.isPrefixOf (l ++ t) = true := by
  rw [List.isPrefixOf_iff_prefix]
  exact List.prefix_append l t

theorem hasSub_of_isPrefixOf {n h : List Char}
    (hp : n.isPrefixOf h = true) : hasSub n h = true := by
  cases h with
  | nil =>
      cases n with
      | nil => rfl
      | cons c t => simp [List.isPrefixOf] at hp
  | cons c t => simp [hasSub, hp]

theorem hasSub_append (a n b : List Char) : hasSub n (a ++ (n ++ b)) = true := by
  induction a with
  | nil => exact hasSub_of_isPrefixOf (isPrefixOf_append_self n b)
  | cons c a' ih => simp [hasSub, ih]

theorem updateGitignore_of_hasSub {g : List Char}
    (h : hasSub gitignoreEntry g = true) : updateGitignore g = g := by
  unfold updateGitignore
  rw [if_pos h]

theorem hasSub_updateGitignore (g : List Char) :
    hasSub gitignoreEntry (updateGitignore g) = true := by
  unfold updateGitignore
  split
  · assumption
  · rw [List.append_assoc]
    exact hasSub_append _ _ _

theorem updateGitignore_idem (g : List Char) :
    updateGitignore (updateGitignore g) = updateGitignore g :=
  updateGitignore_of_hasSub (hasSub_updateGitignore g)

/-! ### Further helper lemmas for the claims -/

theorem keyMem_lookupV_isSome {m : EnvMap} {k : String}
    (h : keyMem k (m.map Prod.fst) = true) : ∃ v, lookupV m k = some v := by
  induction m with
  | nil => simp [keyMem] at h
  | cons x t ih =>
      rw [lookupV_cons]
      by_cases hk : (k == x.1) = true
      · exact ⟨x.2, by rw [if_pos hk]⟩
      · rw [if_neg hk]
        apply ih
        rcases (by simpa [keyMem] using h : k = x.1 ∨ keyMem k (t.map Prod.fst) = true)
          with h1 | h2
        · exact absurd h1 (by simpa using hk)
        · exact h2

theorem lookupV_assignAll {m : EnvMap} {kvs : List (String × String)}
    (hnd : nodupKeys kvs = true) {kv : String × String} (hkv : kv ∈ kvs) :
    lookupV (assignAll m kvs) kv.1 = some kv.2 := by
  obtain ⟨v, hv⟩ := keyMem_lookupV_isSome (keyMem_assignAll kv hkv)
  have hval : v = kv.2 := assignAll_val hnd kv hkv (kv.1, v) (lookupV_mem hv) rfl
  rw [hv, hval]

theorem envNotEmptyMapping_some {e : EnvMap} (h : e ≠ []) :
    envNotEmptyMapping (some e) = true := by
  cases e with
  | nil => exact absurd rfl h
  | cons a t => rfl

theorem envNotEmptyMapping_stripEnv (e : Option EnvMap) (ks : List String) :
    envNotEmptyMapping (stripEnv e ks) = true := by
  cases e with
  | none => rfl
  | some m =>
      have hdef : stripEnv (some m) ks
          = if (removeKeys m ks).isEmpty then none else some (removeKeys m ks) := rfl
      rw [hdef]
      by_cases h : (removeKeys m ks).isEmpty = true
      · rw [if_pos h]
        rfl
      · rw [if_neg h]
        exact envNotEmptyMapping_some (fun hnil => h (by simp [hnil]))

theorem settingsIsEmpty_env_some {s : Settings} {e : EnvMap}
    (h : s.env = some e) : settingsIsEmpty s = false := by
  simp [settingsIsEmpty, h]

theorem persistInvariant_wellFormed (s : Settings) :
    persistInvariant (some (.wellFormed s))
      = (!settingsIsEmpty s && envNotEmptyMapping s.env) := rfl

theorem glmApply_idem (k : String) (s : Settings) :
    glmApply k (glmApply k s) = glmApply k s := by
  unfold glmApply
  simp [assignAll_idem (glm_nodup k)]

theorem bedrockApply_idem (p r : String) (s : Settings) :
    bedrockApply p r (bedrockApply p r s) = bedrockApply p r s := by
  unfold bedrockApply
  simp [assignAll_idem (bedrock_nodup p r)]

end Ccsw

namespace Ccsw

/-- C6: with no stored GLM key, `glm-on` exits with status 1 (the distinct
missing-key path) and leaves both the settings file and the ignore file
exactly as they were. -/
theorem C6_glm_on_missing_key (w : World) :
    glmOn none w = (w, OnResult.exitedNoKey) ∧ exitCode OnResult.exitedNoKey = 1 :=
  ⟨rfl, rfl⟩

/-- C9: when the settings file does not exist, deactivation of either
profile returns the world unchanged and reports the "nothing to do"
outcome (no file created, no error). -/
theorem C9_off_no_file (w : World) (h : w.settings = none) :
    glmOff w = (w, OffResult.nothingToDo) ∧ bedrockOff w = (w, OffResult.nothingToDo) := by
  obtain ⟨fs, g⟩ := w
  cases h
  exact ⟨rfl, rfl⟩

/-- C9 witness: the no-op deactivations at the concrete fresh world. -/
theorem C9_off_no_file_witness :
    glmOff freshWorld = (freshWorld, OffResult.nothingToDo) ∧
    bedrockOff freshWorld = (freshWorld, OffResult.nothingToDo) :=
  C9_off_no_file freshWorld rfl

/-- C8: from `{"foo": 1, "env": {"bar": "baz"}}`, `bedrock-on --profile dev
--region us-east-1` yields exactly the spec's object; with no options the
defaults `sjmbrprofile` / `eu-west-1` are used; a subsequent `bedrock-off`
restores `{"foo":1,"env":{"bar":"baz"}}` with the file retained
(outcome `updated`, not `removedFile`). -/
theorem C8_bedrock_example :
    (bedrockOn (some "dev") (some "us-east-1") exampleWorld).settings =
      some (.wellFormed
        { other := [("foo", Val.num 1)],
          env := some [("bar", "baz"), ("CLAUDE_CODE_USE_BEDROCK", "1"),
                       ("AWS_PROFILE", "dev"), ("AWS_REGION", "us-east-1"),
                       ("IS_DEMO", "true")],
          model := some bedrockModelId }) ∧
    (bedrockOn none none exampleWorld).settings =
      some (.wellFormed
        { other := [("foo", Val.num 1)],
          env := some [("bar", "baz"), ("CLAUDE_CODE_USE_BEDROCK", "1"),
                       ("AWS_PROFILE", "sjmbrprofile"), ("AWS_REGION", "eu-west-1"),
                       ("IS_DEMO", "true")],
          model := some bedrockModelId }) ∧
    (bedrockOff (bedrockOn (some "dev") (some "us-east-1") exampleWorld)).1.settings =
      exampleWorld.settings ∧
    (bedrockOff (bedrockOn (some "dev") (some "us-east-1") exampleWorld)).2 =
      OffResult.updated := by
  refine ⟨?_, ?_, ?_, ?_⟩ <;> decide

/-- C10: both profiles own `env.IS_DEMO`: each activation literal writes it
and each removal list deletes it; consequently, activating GLM and then
running `bedrock-off` removes the `IS_DEMO` key GLM wrote while the
remaining six GLM keys survive. -/
theorem C10_is_demo_shared :
    (∀ k, ("IS_DEMO", "true") ∈ glmNewSettings k) ∧
    (∀ p r, ("IS_DEMO", "true") ∈ bedrockNewSettings p r) ∧
    "IS_DEMO" ∈ glmKeysToRemove ∧
    "IS_DEMO" ∈ bedrockKeysToRemove ∧
    (bedrockOff (glmOn (some "k") freshWorld).1).1.settings =
      some (.wellFormed
        { other := [],
          env := some [("ANTHROPIC_BASE_URL", "https://api.z.ai/api/anthropic"),
                       ("ANTHROPIC_AUTH_TOKEN", "k"),
                       ("API_TIMEOUT_MS", "3000000"),
                       ("ANTHROPIC_DEFAULT_SONNET_MODEL", "glm-4.7"),
                       ("ANTHROPIC_DEFAULT_OPUS_MODEL", "glm-4.7"),
                       ("ANTHROPIC_DEFAULT_HAIKU_MODEL", "glm-4.5-air")],
          model := none }) := by
  refine ⟨?_, ?_, ?_, ?_, ?_⟩
  · intro k; simp [glmNewSettings]
  · intro p r; simp [bedrockNewSettings]
  · decide
  · decide
  · decide

end Ccsw

namespace Ccsw

/-- C1 counterexample: an existing settings file that parses to the empty
object `{}` contains none of the GLM-owned keys, yet activating GLM and then
deactivating it deletes the file instead of restoring the original empty
object, so the roundtrip does not restore the pre-activation content for
every initial object without the owned keys. -/
theorem C1_counterexample_empty_object :
    ((glmOff ((glmOn (some "k") emptyObjWorld).1)).1).settings
      ≠ emptyObjWorld.settings := by
  decide

/-- C1 (amended): activating a profile and then deactivating the same
profile restores the settings file exactly, provided the initial file state
is roundtrip-safe: the file is absent, or parses to a non-empty object that
contains none of the profile's owned keys (including, for Bedrock, the
top-level `model`) and whose `env` field, if present, is a non-empty
mapping.  Without the non-emptiness conditions the deactivation's
cleanup (dropping an emptied `env`, deleting an emptied file) loses the
empty structures, as the counterexample shows. -/
theorem C1_roundtrip_amended :
    (∀ (w : World) (k : String), k.isEmpty = false →
      glmRoundtripSafe w.settings = true →
      ((glmOff ((glmOn (some k) w).1)).1).settings = w.settings) ∧
    (∀ (w : World) (po ro : Option String),
      bedrockRoundtripSafe w.settings = true →
      ((bedrockOff (bedrockOn po ro w)).1).settings = w.settings) := by
  constructor
  · intro w k hk hsafe
    obtain ⟨fs, g⟩ := w
    cases fs with
    | none =>
        have he : removeKeys (assignAll [] (glmNewSettings k)) glmKeysToRemove = [] := by
          rw [removeKeys_assignAll (glm_keys_covered k), removeKeys_nil_left]
        simp [glmOn, hk, glmApply, loadForActivate, Settings.empty, glmOff,
          glmRemove, stripEnv, he, settingsIsEmpty]
    | some fc =>
        cases fc with
        | malformed => simp [glmRoundtripSafe] at hsafe
        | wellFormed s =>
            obtain ⟨so, se, sm⟩ := s
            cases se with
            | none =>
                have hne : settingsIsEmpty ⟨so, none, sm⟩ = false := by
                  simpa [glmRoundtripSafe] using hsafe
                have he : removeKeys (assignAll [] (glmNewSettings k))
                    glmKeysToRemove = [] := by
                  rw [removeKeys_assignAll (glm_keys_covered k), removeKeys_nil_left]
                simp [glmOn, hk, glmApply, loadForActivate, glmOff, glmRemove,
                  stripEnv, he, hne]
            | some e =>
                have hsafe' : settingsIsEmpty ⟨so, some e, sm⟩ = false ∧
                    e.isEmpty = false ∧
                    ∀ p ∈ e, keyMem p.1 glmKeysToRemove = false := by
                  simpa [glmRoundtripSafe, List.all_eq_true] using hsafe
                have he : removeKeys (assignAll e (glmNewSettings k))
                    glmKeysToRemove = e := by
                  rw [removeKeys_assignAll (glm_keys_covered k),
                    removeKeys_eq_self hsafe'.2.2]
                simp [glmOn, hk, glmApply, loadForActivate, glmOff, glmRemove,
                  stripEnv, he, hsafe'.2.1, hsafe'.1]
  · intro w po ro hsafe
    obtain ⟨fs, g⟩ := w
    cases fs with
    | none =>
        have he : removeKeys
            (assignAll [] (bedrockNewSettings (resolveOpt po "sjmbrprofile")
              (resolveOpt ro "eu-west-1"))) bedrockKeysToRemove = [] := by
          rw [removeKeys_assignAll (bedrock_keys_covered _ _), removeKeys_nil_left]
        simp [bedrockOn, bedrockApply, loadForActivate, Settings.empty,
          bedrockOff, bedrockRemove, stripEnv, he, settingsIsEmpty]
    | some fc =>
        cases fc with
        | malformed => simp [bedrockRoundtripSafe] at hsafe
        | wellFormed s =>
            obtain ⟨so, se, sm⟩ := s
            cases se with
            | none =>
                have hsafe' : settingsIsEmpty ⟨so, none, sm⟩ = false ∧
                    sm = none := by
                  simpa [bedrockRoundtripSafe, Option.isNone_iff_eq_none]
                    using hsafe
                have he : removeKeys
                    (assignAll [] (bedrockNewSettings (resolveOpt po "sjmbrprofile")
                      (resolveOpt ro "eu-west-1"))) bedrockKeysToRemove = [] := by
                  rw [removeKeys_assignAll (bedrock_keys_covered _ _),
                    removeKeys_nil_left]
                obtain ⟨h1, h2⟩ := hsafe'
                subst h2
                simp [bedrockOn, bedrockApply, loadForActivate, bedrockOff,
                  bedrockRemove, stripEnv, he, h1]
            | some e =>
                have hsafe' : (settingsIsEmpty ⟨so, some e, sm⟩ = false ∧
                    sm = none) ∧ e.isEmpty = false ∧
                    ∀ p ∈ e, keyMem p.1 bedrockKeysToRemove = false := by
                  simpa [bedrockRoundtripSafe, List.all_eq_true,
                    Option.isNone_iff_eq_none] using hsafe
                have he : removeKeys
                    (assignAll e (bedrockNewSettings (resolveOpt po "sjmbrprofile")
                      (resolveOpt ro "eu-west-1"))) bedrockKeysToRemove = e := by
                  rw [removeKeys_assignAll (bedrock_keys_covered _ _),
                    removeKeys_eq_self hsafe'.2.2]
                obtain ⟨⟨h1, h2⟩, h3, _⟩ := hsafe'
                subst h2
                simp [bedrockOn, bedrockApply, loadForActivate, bedrockOff,
                  bedrockRemove, stripEnv, he, h3, h1]

/-- C1 witness: the amended roundtrip at the spec's example world (a
non-empty object with an unrelated top-level field and an unrelated `env`
key). -/
theorem C1_roundtrip_amended_witness :
    ((glmOff ((glmOn (some "abc") exampleWorld).1)).1).settings
      = exampleWorld.settings ∧
    ((bedrockOff (bedrockOn (some "dev") none exampleWorld)).1).settings
      = exampleWorld.settings :=
  ⟨C1_roundtrip_amended.1 exampleWorld "abc" (by decide) (by decide),
   C1_roundtrip_amended.2 exampleWorld (some "dev") none (by decide)⟩

end Ccsw

namespace Ccsw

/-- C2: after any operation the persisted settings object never holds `env`
as an empty mapping and is never itself empty (the file is deleted
instead); conversely, when unrelated `env` keys survive a deactivation the
file is retained as a well-formed object. -/
theorem C2_persist_invariant :
    (∀ (k : String) (w : World), k.isEmpty = false →
      persistInvariant ((glmOn (some k) w).1).settings = true) ∧
    (∀ (po ro : Option String) (w : World),
      persistInvariant (bedrockOn po ro w).settings = true) ∧
    (∀ w : World, persistInvariant ((glmOff w).1).settings = true) ∧
    (∀ w : World, persistInvariant ((bedrockOff w).1).settings = true) ∧
    (∀ (w : World) (s : Settings) (e : EnvMap),
      w.settings = some (.wellFormed s) → s.env = some e →
      (removeKeys e glmKeysToRemove).isEmpty = false →
      ∃ s', ((glmOff w).1).settings = some (.wellFormed s')) ∧
    (∀ (w : World) (s : Settings) (e : EnvMap),
      w.settings = some (.wellFormed s) → s.env = some e →
      (removeKeys e bedrockKeysToRemove).isEmpty = false →
      ∃ s', ((bedrockOff w).1).settings = some (.wellFormed s')) := by
  refine ⟨?_, ?_, ?_, ?_, ?_, ?_⟩
  · intro k w hk
    simp only [glmOn, hk]
    rw [if_neg (by simp)]
    rw [persistInvariant_wellFormed]
    simp [settingsIsEmpty, glmApply,
      envNotEmptyMapping_some (assignAll_glm_ne_nil ((loadForActivate w.settings).env.getD []) k)]
  · intro po ro w
    simp only [bedrockOn]
    rw [persistInvariant_wellFormed]
    simp [settingsIsEmpty, bedrockApply,
      envNotEmptyMapping_some (assignAll_bedrock_ne_nil
        ((loadForActivate w.settings).env.getD []) (resolveOpt po "sjmbrprofile")
        (resolveOpt ro "eu-west-1"))]
  · intro w
    obtain ⟨fs, g⟩ := w
    cases fs with
    | none => rfl
    | some fc =>
        cases fc with
        | malformed => rfl
        | wellFormed s =>
            simp only [glmOff]
            split
            · rfl
            · rename_i hne
              rw [persistInvariant_wellFormed]
              rw [(by simpa using hne : settingsIsEmpty (glmRemove s) = false)]
              simpa using envNotEmptyMapping_stripEnv s.env glmKeysToRemove
  · intro w
    obtain ⟨fs, g⟩ := w
    cases fs with
    | none => rfl
    | some fc =>
        cases fc with
        | malformed => rfl
        | wellFormed s =>
            simp only [bedrockOff]
            split
            · rfl
            · rename_i hne
              rw [persistInvariant_wellFormed]
              rw [(by simpa using hne : settingsIsEmpty (bedrockRemove s) = false)]
              simpa using envNotEmptyMapping_stripEnv s.env bedrockKeysToRemove
  · intro w s e hws hse hne
    obtain ⟨fs, g⟩ := w
    dsimp only at hws
    subst hws
    have henv : (glmRemove s).env = some (removeKeys e glmKeysToRemove) := by
      simp [glmRemove, stripEnv, hse, hne]
    refine ⟨glmRemove s, ?_⟩
    simp [glmOff, settingsIsEmpty_env_some henv]
  · intro w s e hws hse hne
    obtain ⟨fs, g⟩ := w
    dsimp only at hws
    subst hws
    have henv : (bedrockRemove s).env = some (removeKeys e bedrockKeysToRemove) := by
      simp [bedrockRemove, stripEnv, hse, hne]
    refine ⟨bedrockRemove s, ?_⟩
    simp [bedrockOff, settingsIsEmpty_env_some henv]

/-- C2 witness: the invariant and the retention clause at the spec's
example world. -/
theorem C2_persist_invariant_witness :
    persistInvariant ((glmOn (some "abc") exampleWorld).1).settings = true ∧
    (∃ s', ((bedrockOff exampleWorld).1).settings = some (.wellFormed s')) :=
  ⟨C2_persist_invariant.1 "abc" exampleWorld (by decide),
   C2_persist_invariant.2.2.2.2.2 exampleWorld
     ⟨[("foo", Val.num 1)], some [("bar", "baz")], none⟩ [("bar", "baz")]
     rfl rfl (by decide)⟩

end Ccsw

namespace Ccsw

/-- C3: activation overwrites each profile field unconditionally (the
resulting `env` maps every profile key to the profile's value), while the
frame is preserved: top-level fields other than `env` (and `model`, which
Bedrock sets to its fixed literal) are unchanged, and the `env` entries
whose keys the profile does not own are exactly those of the original
`env`. -/
theorem C3_activation_frame :
    (∀ (k : String) (s : Settings),
      (glmApply k s).other = s.other ∧
      (glmApply k s).model = s.model ∧
      (glmApply k s).env = some (assignAll (s.env.getD []) (glmNewSettings k)) ∧
      (∀ kv, kv ∈ glmNewSettings k →
        lookupV (assignAll (s.env.getD []) (glmNewSettings k)) kv.1 = some kv.2) ∧
      removeKeys (assignAll (s.env.getD []) (glmNewSettings k)) glmKeysToRemove
        = removeKeys (s.env.getD []) glmKeysToRemove) ∧
    (∀ (pn rg : String) (s : Settings),
      (bedrockApply pn rg s).other = s.other ∧
      (bedrockApply pn rg s).model = some bedrockModelId ∧
      (bedrockApply pn rg s).env
        = some (assignAll (s.env.getD []) (bedrockNewSettings pn rg)) ∧
      (∀ kv, kv ∈ bedrockNewSettings pn rg →
        lookupV (assignAll (s.env.getD []) (bedrockNewSettings pn rg)) kv.1
          = some kv.2) ∧
      removeKeys (assignAll (s.env.getD []) (bedrockNewSettings pn rg))
          bedrockKeysToRemove
        = removeKeys (s.env.getD []) bedrockKeysToRemove) := by
  constructor
  · intro k s
    refine ⟨rfl, rfl, rfl, ?_, ?_⟩
    · intro kv hkv
      exact lookupV_assignAll (glm_nodup k) hkv
    · exact removeKeys_assignAll (glm_keys_covered k)
  · intro pn rg s
    refine ⟨rfl, rfl, rfl, ?_, ?_⟩
    · intro kv hkv
      exact lookupV_assignAll (bedrock_nodup pn rg) hkv
    · exact removeKeys_assignAll (bedrock_keys_covered pn rg)

/-- C3 witness: the frame condition at the spec's example settings object,
checking one overwritten profile key and the preservation of the unrelated
entries. -/
theorem C3_activation_frame_witness :
    (glmApply "abc" ⟨[("foo", Val.num 1)], some [("bar", "baz")], none⟩).other
      = [("foo", Val.num 1)] ∧
    lookupV (assignAll [("bar", "baz")] (glmNewSettings "abc")) "IS_DEMO"
      = some "true" ∧
    removeKeys (assignAll [("bar", "baz")] (bedrockNewSettings "dev" "us-east-1"))
        bedrockKeysToRemove
      = removeKeys [("bar", "baz")] bedrockKeysToRemove :=
  ⟨(C3_activation_frame.1 "abc" ⟨[("foo", Val.num 1)], some [("bar", "baz")], none⟩).1,
   (C3_activation_frame.1 "abc" ⟨[("foo", Val.num 1)], some [("bar", "baz")], none⟩).2.2.2.1
     ("IS_DEMO", "true") (by simp [glmNewSettings]),
   (C3_activation_frame.2 "dev" "us-east-1"
     ⟨[("foo", Val.num 1)], some [("bar", "baz")], none⟩).2.2.2.2⟩

/-- C4: activation is idempotent: running either activation twice with the
same key and options leaves the same settings object as running it once
(the written field values are fixed literals, not accumulated). -/
theorem C4_activation_idempotent (key? po ro : Option String) (w : World) :
    ((glmOn key? ((glmOn key? w).1)).1).settings = ((glmOn key? w).1).settings ∧
    (bedrockOn po ro (bedrockOn po ro w)).settings = (bedrockOn po ro w).settings := by
  constructor
  · cases key? with
    | none => rfl
    | some k =>
        by_cases hk : k.isEmpty = true
        · simp [glmOn, hk]
        · simp [glmOn, hk, loadForActivate, glmApply_idem]
  · simp [bedrockOn, loadForActivate, bedrockApply_idem]

/-- C5: when the settings file exists but is malformed JSON, activation of
either profile proceeds from the empty object (discarding the prior
content) and succeeds, whereas deactivation of either profile reports the
parse failure and leaves the world unchanged. -/
theorem C5_malformed_asymmetry :
    (∀ (w : World) (k : String), w.settings = some FileContent.malformed →
      k.isEmpty = false →
      (glmOn (some k) w).1.settings
        = some (.wellFormed (glmApply k Settings.empty)) ∧
      (glmOn (some k) w).2 = OnResult.wrote) ∧
    (∀ (w : World) (po ro : Option String),
      w.settings = some FileContent.malformed →
      (bedrockOn po ro w).settings = some (.wellFormed
        (bedrockApply (resolveOpt po "sjmbrprofile") (resolveOpt ro "eu-west-1")
          Settings.empty))) ∧
    (∀ w : World, w.settings = some FileContent.malformed →
      glmOff w = (w, OffResult.parseError) ∧
      bedrockOff w = (w, OffResult.parseError)) := by
  refine ⟨?_, ?_, ?_⟩
  · intro w k hws hk
    constructor
    · simp [glmOn, hk, hws, loadForActivate]
    · simp [glmOn, hk]
  · intro w po ro hws
    simp [bedrockOn, hws, loadForActivate]
  · intro w hws
    obtain ⟨fs, g⟩ := w
    dsimp only at hws
    subst hws
    exact ⟨rfl, rfl⟩

/-- C5 witness: the asymmetry at the concrete malformed-file world. -/
theorem C5_malformed_asymmetry_witness :
    (glmOn (some "abc") malformedWorld).1.settings
      = some (.wellFormed (glmApply "abc" Settings.empty)) ∧
    glmOff malformedWorld = (malformedWorld, OffResult.parseError) :=
  ⟨(C5_malformed_asymmetry.1 malformedWorld "abc" rfl (by decide)).1,
   (C5_malformed_asymmetry.2.2 malformedWorld rfl).1⟩

/-- C7: the ignore file gains the entry exactly when its content does not
already contain it as a substring, with a separating newline only for
non-empty content not ending in a newline; updating is idempotent, so any
number of activations adds the entry at most once; both activations route
the ignore file through this update, and neither deactivation ever touches
it. -/
theorem C7_gitignore_sync :
    (∀ g, hasSub gitignoreEntry g = true → updateGitignore g = g) ∧
    (∀ g, hasSub gitignoreEntry g = false →
      updateGitignore g = g ++ (if g.length > 0 && !endsWithNewline g
        then ['\n'] else []) ++ gitignoreEntry ++ ['\n']) ∧
    (∀ g, updateGitignore (updateGitignore g) = updateGitignore g) ∧
    (∀ (k : String) (w : World), k.isEmpty = false →
      ((glmOn (some k) w).1).gitignore = updateGitignore w.gitignore) ∧
    (∀ (po ro : Option String) (w : World),
      (bedrockOn po ro w).gitignore = updateGitignore w.gitignore) ∧
    (∀ w : World, ((glmOff w).1).gitignore = w.gitignore ∧
      ((bedrockOff w).1).gitignore = w.gitignore) := by
  refine ⟨?_, ?_, ?_, ?_, ?_, ?_⟩
  · exact fun g h => updateGitignore_of_hasSub h
  · intro g h
    unfold updateGitignore
    rw [if_neg (by simp [h])]
  · exact updateGitignore_idem
  · intro k w hk
    simp [glmOn, hk]
  · intro po ro w
    rfl
  · intro w
    obtain ⟨fs, g⟩ := w
    cases fs with
    | none => exact ⟨rfl, rfl⟩
    | some fc =>
        cases fc with
        | malformed => exact ⟨rfl, rfl⟩
        | wellFormed s =>
            constructor
            · simp only [glmOff]
              split <;> rfl
            · simp only [bedrockOff]
              split <;> rfl

/-- C7 witness: the append branch at empty content, the no-op branch at
content that is exactly the entry, and the routing of an activation. -/
theorem C7_gitignore_sync_witness :
    updateGitignore gitignoreEntry = gitignoreEntry ∧
    updateGitignore []
      = [] ++ (if ([] : List Char).length > 0 && !endsWithNewline []
        then ['\n'] else []) ++ gitignoreEntry ++ ['\n'] ∧
    ((glmOn (some "abc") freshWorld).1).gitignore
      = updateGitignore freshWorld.gitignore :=
  ⟨C7_gitignore_sync.1 gitignoreEntry (by decide),
   C7_gitignore_sync.2.1 [] rfl,
   C7_gitignore_sync.2.2.2.1 "abc" freshWorld (by decide)⟩

end Ccsw
